import Mathlib

/-!
Verification of the swift-coder path subsystem and module registry.

JavaScript strings are modelled as lists of characters (`JStr`); JavaScript
`Map`s are modelled as insertion-ordered association lists; fallible
operations (`throw`) return `Except`; filesystem and environment access is
modelled by explicit oracle structures passed to the functions that perform
the I/O.  All definitions are translated from the TypeScript source
(`src/mcp-server/src/utils/path-handler.ts`, which bundles the path handler,
the `RepoManager` and the path utilities, and the `ModuleManager` source).
-/

namespace SwiftCoder

/-- JavaScript string contents: a list of UTF-16-ish characters. -/
abbrev JStr := List Char

/-! ## Generic string helpers mirroring JavaScript string methods -/

/-- `isPreL p s` is `String.prototype.startsWith`: `p` is a prefix of `s`. -/
def isPreL : JStr → JStr → Bool
  | [], _ => true
  | _ :: _, [] => false
  | a :: as, b :: bs => if a = b then isPreL as bs else false

/-- `hasSubL needle hay` is `String.prototype.includes`. -/
def hasSubL (needle : JStr) : JStr → Bool
  | [] => needle.isEmpty
  | x :: xs => isPreL needle (x :: xs) || hasSubL needle xs

/-- `String.prototype.endsWith`. -/
def isSufL (p s : JStr) : Bool := isPreL p.reverse s.reverse

/-- `String.prototype.split` with a single-character separator. -/
def splitOnChar (c : Char) : JStr → List JStr
  | [] => [[]]
  | x :: xs =>
    match splitOnChar c xs with
    | [] => [[]]
    | h :: t => if x = c then [] :: h :: t else (x :: h) :: t

/-- `Array.prototype.join` with a single-character separator. -/
def joinChar (c : Char) : List JStr → JStr
  | [] => []
  | [s] => s
  | s :: t :: rest => s ++ c :: joinChar c (t :: rest)

/-- `String.prototype.split` specialised to the separator `"://"`, scanning
left to right for non-overlapping occurrences, exactly as the JavaScript
`path.split('://')` does. -/
def splitCSS : JStr → List JStr
  | [] => [[]]
  | [x] => [[x]]
  | [x, y] => [[x, y]]
  | x :: y :: z :: rest =>
    if x = ':' ∧ y = '/' ∧ z = '/' then
      [] :: splitCSS rest
    else
      match splitCSS (y :: z :: rest) with
      | [] => [[]]
      | h :: t => (x :: h) :: t

/-- The separator string `"://"`. -/
def cssSep : JStr := (("://").data)

/-- `String.prototype.replace` with a plain-string pattern: replace the first
occurrence of `pat` by `rep` (used for `key.replace('REPO_PATH_', '')`). -/
def replaceFirstL (pat rep : JStr) : JStr → JStr
  | [] => if pat.isEmpty then rep else []
  | x :: xs =>
    if isPreL pat (x :: xs) then rep ++ (x :: xs).drop pat.length
    else x :: replaceFirstL pat rep xs

/-- `String.prototype.toLowerCase` (ASCII-faithful). -/
def lowerL (s : JStr) : JStr := s.map Char.toLower

/-- `String.prototype.toUpperCase` (ASCII-faithful). -/
def upperL (s : JStr) : JStr := s.map Char.toUpper

/-! ## Basic lemmas about the string helpers -/

theorem splitOnChar_ne_nil (c : Char) (s : JStr) : splitOnChar c s ≠ [] := by
  induction s with
  | nil => simp [splitOnChar]
  | cons x xs ih =>
    simp only [splitOnChar]
    cases h : splitOnChar c xs with
    | nil => simp
    | cons hh tt => by_cases hx : x = c <;> simp [hx]

theorem splitOnChar_append (c : Char) (a b : JStr) (ha : c ∉ a) :
    splitOnChar c (a ++ c :: b) = a :: splitOnChar c b := by
  induction a with
  | nil =>
    simp only [List.nil_append, splitOnChar]
    cases h : splitOnChar c b with
    | nil => exact absurd h (splitOnChar_ne_nil c b)
    | cons hh tt => simp
  | cons x a' ih =>
    have hx : x ≠ c := fun hxc => ha (hxc ▸ List.mem_cons_self x a')
    have ha' : c ∉ a' := fun h => ha (List.mem_cons_of_mem x h)
    simp only [List.cons_append, splitOnChar, List.append_eq]
    rw [ih ha']
    simp [hx]

theorem joinChar_splitOnChar (c : Char) (s : JStr) :
    joinChar c (splitOnChar c s) = s := by
  induction s with
  | nil => simp [splitOnChar, joinChar]
  | cons x xs ih =>
    simp only [splitOnChar]
    cases h : splitOnChar c xs with
    | nil => exact absurd h (splitOnChar_ne_nil c xs)
    | cons hh tt =>
      rw [h] at ih
      by_cases hx : x = c
      · subst hx
        simp only [if_pos rfl, joinChar]
        simpa using ih
      · simp only [if_neg hx]
        cases tt with
        | nil => simp only [joinChar] at ih ⊢; simp [ih]
        | cons u t' =>
          simp only [joinChar] at ih ⊢
          simp [← ih]

theorem isPreL_append (p t : JStr) : isPreL p (p ++ t) = true := by
  induction p with
  | nil => simp [isPreL]
  | cons a as ih => simp [isPreL, ih]

theorem hasSubL_of_isPreL (n s : JStr) (h : isPreL n s = true) :
    hasSubL n s = true := by
  cases s with
  | nil =>
    cases n with
    | nil => simp [hasSubL]
    | cons m ms => simp [isPreL] at h
  | cons x xs => simp [hasSubL, h]

theorem hasSubL_cons (n : JStr) (x : Char) (xs : JStr) (h : hasSubL n xs = true) :
    hasSubL n (x :: xs) = true := by
  simp only [hasSubL, h, Bool.or_true]

theorem hasSubL_append (n a b : JStr) : hasSubL n (a ++ n ++ b) = true := by
  induction a with
  | nil =>
    simp only [List.nil_append]
    exact hasSubL_of_isPreL n (n ++ b) (isPreL_append n b)
  | cons x a' ih =>
    simp only [List.cons_append] at ih ⊢
    exact hasSubL_cons n x (a' ++ n ++ b) ih

/-- If a string contains no occurrence of `"://"`, `splitCSS` leaves it whole. -/
theorem splitCSS_of_not_hasSub (s : JStr) (h : hasSubL cssSep s = false) :
    splitCSS s = [s] := by
  induction s with
  | nil => simp [splitCSS]
  | cons x xs ih =>
    have hpre : isPreL cssSep (x :: xs) = false := by
      cases hp : isPreL cssSep (x :: xs) with
      | false => rfl
      | true => simp [hasSubL, hp] at h
    have htail : hasSubL cssSep xs = false := by
      cases ht : hasSubL cssSep xs with
      | false => rfl
      | true => simp [hasSubL, ht] at h
    cases xs with
    | nil => simp [splitCSS]
    | cons y ys =>
      cases ys with
      | nil => simp [splitCSS]
      | cons z rest =>
        have hcond : ¬(x = ':' ∧ y = '/' ∧ z = '/') := by
          intro ⟨h1, h2, h3⟩
          subst h1; subst h2; subst h3
          simp [cssSep, isPreL] at hpre
        rw [splitCSS, if_neg hcond, ih htail]

/-- Leftmost-split: if the head part contains no occurrence of `"://"` then
`splitCSS` of `a ++ "://" ++ b` starts with exactly `a` — the separator
`"://"` cannot begin inside `a` (an occurrence straddling the boundary would
need `':' = '/'`), so the first occurrence is the explicit one. -/
theorem splitCSS_append (a b : JStr) (ha : hasSubL cssSep a = false) :
    splitCSS (a ++ ':' :: '/' :: '/' :: b) = a :: splitCSS b := by
  induction a with
  | nil =>
    simp only [List.nil_append]
    rw [splitCSS, if_pos ⟨rfl, rfl, rfl⟩]
  | cons x a' ih =>
    have hpre : isPreL cssSep (x :: a') = false := by
      cases hp : isPreL cssSep (x :: a') with
      | false => rfl
      | true => simp [hasSubL, hp] at ha
    have ha' : hasSubL cssSep a' = false := by
      cases ht : hasSubL cssSep a' with
      | false => rfl
      | true => simp [hasSubL, ht] at ha
    have ihv := ih ha'
    cases ha'' : a' with
    | nil =>
      subst ha''
      simp only [List.nil_append] at ihv ⊢
      simp only [List.cons_append, List.nil_append]
      rw [splitCSS, if_neg (fun hc => absurd hc.2.1 (by decide)), ihv]
    | cons w a'' =>
      subst ha''
      cases a'' with
      | nil =>
        simp only [List.cons_append, List.nil_append] at ihv ⊢
        rw [splitCSS, if_neg (fun hc => absurd hc.2.2 (by decide)), ihv]
      | cons w2 t =>
        simp only [List.cons_append] at ihv ⊢
        rw [splitCSS, if_neg ?hc, ihv]
        case hc =>
          rintro ⟨hx, hy, hz⟩
          subst hx
          subst hy
          subst hz
          simp [cssSep, isPreL] at hpre

theorem hasSubL_cssSep_append (a b : JStr) :
    hasSubL cssSep (a ++ ':' :: '/' :: '/' :: b) = true := by
  have : (a ++ ':' :: '/' :: '/' :: b) = a ++ cssSep ++ b := by
    simp [cssSep]
  rw [this]
  exact hasSubL_append cssSep a b

/-! ## Insertion-ordered association lists, modelling JavaScript `Map` -/

/-- `Map.prototype.get`. -/
def amGet {α : Type} (k : JStr) : List (JStr × α) → Option α
  | [] => none
  | (k', v) :: rest => if k' = k then some v else amGet k rest

/-- `Map.prototype.set`: update in place if the key exists (keeping its
insertion position), otherwise append. -/
def amSet {α : Type} (k : JStr) (v : α) : List (JStr × α) → List (JStr × α)
  | [] => [(k, v)]
  | (k', v') :: rest =>
    if k' = k then (k, v) :: rest else (k', v') :: amSet k v rest

theorem amGet_mem {α : Type} (k : JStr) (l : List (JStr × α)) (v : α)
    (h : amGet k l = some v) : (k, v) ∈ l := by
  induction l with
  | nil => simp [amGet] at h
  | cons p rest ih =>
    obtain ⟨k', v'⟩ := p
    simp only [amGet] at h
    by_cases hk : k' = k
    · rw [if_pos hk] at h
      subst hk
      simp at h
      subst h
      exact List.mem_cons_self _ _
    · rw [if_neg hk] at h
      exact List.mem_cons_of_mem _ (ih h)

/-! ## RepoManager (`repoManager.ts`): repository registry -/

/-- `RepoConfig` from the source (the optional `moduleDetectionPatterns`
field is never consulted and is omitted). -/
structure RepoConfig where
  id : JStr
  path : JStr
  displayName : JStr
deriving DecidableEq

/-- The mutable fields of the `RepoManager` class (`_initialWorkingDir` is
never read by the operations under verification). -/
structure RepoState where
  repositories : List (JStr × RepoConfig)
  defaultRepoId : Option JStr
  rootDir : JStr
deriving DecidableEq

/-- JavaScript truthiness test `!x` on an optional string: `undefined`,
`null` and the empty string are falsy. -/
def falsyStr : Option JStr → Bool
  | none => true
  | some s => s.isEmpty

/-- `path.isAbsolute` for POSIX paths. -/
def isAbsoluteL (p : JStr) : Bool := isPreL (['/']) p

/-- One step of POSIX path-segment normalization used by `path.resolve`. -/
def normSegs (acc : List JStr) : List JStr → List JStr
  | [] => acc.reverse
  | s :: rest =>
    if s.isEmpty ∨ s = ['.'] then normSegs acc rest
    else if s = ['.', '.'] then normSegs acc.tail rest
    else normSegs (s :: acc) rest

/-- `path.resolve(rootDir, p)` for a relative `p` against the absolute root
`"/"`: join under the root and normalize the segments. -/
def pathResolveRoot (p : JStr) : JStr :=
  '/' :: joinChar '/' (normSegs [] (splitOnChar '/' p))

/-- `RepoManager.getRepository`: an omitted or empty id falls back to the
default repository when one is set. -/
def RepoState.getRepository (st : RepoState) (repoId : Option JStr) : Option RepoConfig :=
  if falsyStr repoId ∧ st.defaultRepoId.isSome then
    amGet (st.defaultRepoId.getD []) st.repositories
  else
    match repoId with
    | some s => if s.isEmpty then none else amGet s st.repositories
    | none => none

/-- The `defaultRepoId` getter: `this._defaultRepoId || 'unknown'`. -/
def RepoState.defaultRepoIdGet (st : RepoState) : JStr :=
  match st.defaultRepoId with
  | some s => if s.isEmpty then (("unknown").data) else s
  | none => (("unknown").data)

/-- `RepoManager.addRepository`. -/
def RepoState.addRepository (st : RepoState) (config : RepoConfig) : RepoState :=
  let cfg :=
    if isAbsoluteL config.path then config
    else { config with path := pathResolveRoot config.path }
  let st' := { st with repositories := amSet cfg.id cfg st.repositories }
  if falsyStr st'.defaultRepoId then
    { st' with defaultRepoId := some cfg.id }
  else st'

/-- The registry state at construction time, before `loadFromEnvironment`. -/
def initialRepoState : RepoState :=
  { repositories := [], defaultRepoId := none, rootDir := ['/'] }

/-- `RepoManager.capitalizeRepoId`. -/
def capitalizeRepoId (repoId : JStr) : JStr :=
  match repoId with
  | [] => []
  | c :: rest => Char.toUpper c :: rest

/-- The process environment and filesystem-existence oracle consumed by
`loadFromEnvironment`: entries in `Object.keys` order plus `fs.existsSync`. -/
structure EnvModel where
  vars : List (JStr × JStr)
  pathExists : JStr → Bool

/-- `process.env[key]` lookup. -/
def EnvModel.envGet (env : EnvModel) (k : JStr) : Option JStr :=
  (env.vars.find? (fun p => p.1 = k)).map (·.2)

/-- The loop body of `loadFromEnvironment` for one environment key. -/
def loadEnvStep (env : EnvModel) (st : RepoState) (k : JStr) : RepoState :=
  if isPreL (("REPO_PATH_").data) k then
    let repoId := lowerL (replaceFirstL (("REPO_PATH_").data) [] k)
    match env.envGet k with
    | some repoPath =>
      if ¬repoPath.isEmpty ∧ env.pathExists repoPath then
        let displayNameKey := (("REPO_NAME_").data) ++ upperL repoId
        let displayName :=
          match env.envGet displayNameKey with
          | some d => if d.isEmpty then capitalizeRepoId repoId else d
          | none => capitalizeRepoId repoId
        let st' := st.addRepository ⟨repoId, repoPath, displayName⟩
        if falsyStr st'.defaultRepoId then
          { st' with defaultRepoId := some repoId }
        else st'
      else st
    | none => st
  else st

/-- `RepoManager.loadFromEnvironment`: scan `REPO_PATH_*` variables, then the
legacy `SWIFT_CODER_REPO_PATH` override (logging omitted). -/
def loadFromEnvironment (env : EnvModel) (st : RepoState) : RepoState :=
  let st1 := env.vars.foldl (fun s p => loadEnvStep env s p.1) st
  match env.envGet (("SWIFT_CODER_REPO_PATH").data) with
  | some p =>
    if ¬p.isEmpty ∧ env.pathExists p then
      let st2 := st1.addRepository
        ⟨(("swift-coder").data), p, (("Swift Coder").data)⟩
      { st2 with defaultRepoId := some (("swift-coder").data) }
    else st1
  | none => st1

/-! ## Working-directory discipline (`resetWorkingDirectory`,
`setRepositoryAsWorkingDirectory`).  The process-wide current directory is
explicit state; `process.chdir` may fail (oracle `ok`); each successful
`process.chdir` is recorded in a trace of `(cwd before, target)` pairs. -/

/-- Process state: the registry plus `process.cwd()`. -/
structure ProcState where
  repo : RepoState
  cwd : JStr

/-- `RepoManager.resetWorkingDirectory`: change to `_rootDir` unless already
there; a `process.chdir` failure is caught and reported as `false`. -/
def resetWorkingDirectory (ok : JStr → Bool) (st : ProcState) :
    Bool × ProcState × List (JStr × JStr) :=
  if st.cwd ≠ st.repo.rootDir then
    if ok st.repo.rootDir then
      (true, { st with cwd := st.repo.rootDir }, [(st.cwd, st.repo.rootDir)])
    else (false, st, [])
  else (true, st, [])

/-- `RepoManager.setRepositoryAsWorkingDirectory`: always reset to the root
first (discarding the result), then change into the repository root. -/
def setRepositoryAsWorkingDirectory (ok : JStr → Bool) (st : ProcState)
    (repoId : Option JStr) : Bool × ProcState × List (JStr × JStr) :=
  let r := resetWorkingDirectory ok st
  let st1 := r.2.1
  let tr1 := r.2.2
  match st1.repo.getRepository repoId with
  | none => (false, st1, tr1)
  | some repo =>
    if ok repo.path then
      (true, { st1 with cwd := repo.path }, tr1 ++ [(st1.cwd, repo.path)])
    else (false, st1, tr1)

/-! ## Path format parser and validator (`path-handler.ts`) -/

/-- `PathFormatType`. -/
inductive PathFormatType
  | absolutePath
  | repositoryPrefixed
  | relativePath
  | unknown
deriving DecidableEq

/-- `getPathFormatType`. -/
def getPathFormatType (p : JStr) : PathFormatType :=
  if p.isEmpty then .unknown
  else if isPreL (['/']) p then .absolutePath
  else if hasSubL cssSep p then .repositoryPrefixed
  else .relativePath

/-- The record returned by `parsePathFormat`. -/
structure ParsedPath where
  repoId : JStr
  relativePath : JStr
  formatType : PathFormatType
deriving DecidableEq

/-- Error message `Invalid absolute path format: ${path}`. -/
def invalidAbsoluteFormatMsg (p : JStr) : JStr :=
  (("Invalid absolute path format: ").data) ++ p

/-- Error message `Invalid repository prefixed path: ${path}`. -/
def invalidPrefixedMsg (p : JStr) : JStr :=
  (("Invalid repository prefixed path: ").data) ++ p

/-- Error message `Unknown or invalid path format: ${path}`. -/
def unknownFormatMsg (p : JStr) : JStr :=
  (("Unknown or invalid path format: ").data) ++ p

/-- `parsePathFormat` (throwing is modelled by `Except.error` carrying the
thrown message). -/
def parsePathFormat (st : RepoState) (p : JStr) : Except JStr ParsedPath :=
  match getPathFormatType p with
  | .absolutePath =>
    let parts := splitOnChar '/' (p.drop 1)
    if parts.length < 2 then .error (invalidAbsoluteFormatMsg p)
    else .ok ⟨parts.headD [], joinChar '/' (parts.drop 1), .absolutePath⟩
  | .repositoryPrefixed =>
    let parts := splitCSS p
    let pre := parts.headD []
    let rest := (parts.drop 1).headD []
    if pre.isEmpty ∨ rest.isEmpty then .error (invalidPrefixedMsg p)
    else .ok ⟨pre, rest, .repositoryPrefixed⟩
  | .relativePath => .ok ⟨st.defaultRepoIdGet, p, .relativePath⟩
  | .unknown => .error (unknownFormatMsg p)

/-- The structured result of `validatePathForTool`. -/
structure ValidationResult where
  isValid : Bool
  errorMessage : Option JStr
deriving DecidableEq

/-- A single-quote character, written by code point to keep source hygiene. -/
def squote : Char := Char.ofNat 39

/-- Error message `INVALID REPOSITORY ID: '${repoId}' not found in registered
repositories.` -/
def invalidRepoIdMsg (repoId : JStr) : JStr :=
  (("INVALID REPOSITORY ID: ").data) ++ squote :: repoId ++ squote ::
    ((" not found in registered repositories.").data)

/-- The fixed part of the absolute-path-required message. -/
def absoluteRequiredMsg (examplePath : JStr) : JStr :=
  (("ABSOLUTE PATH REQUIRED: All tools now require absolute paths in the format: /repoId/path/to/file\nConvert your path to: ").data)
    ++ examplePath

/-- Error message `INVALID ABSOLUTE PATH: ...`. -/
def invalidAbsolutePatternMsg : JStr :=
  (("INVALID ABSOLUTE PATH: Path must follow pattern: /repoId/path/to/file").data)

/-- `validatePathForTool` (the tool name parameter is unused in the source). -/
def validatePathForTool (st : RepoState) (p : JStr) (_toolName : JStr) :
    ValidationResult :=
  let formatType := getPathFormatType p
  if formatType ≠ .absolutePath then
    let examplePath :=
      if formatType = .repositoryPrefixed then
        let parts := splitCSS p
        '/' :: (parts.headD []) ++ '/' :: ((parts.drop 1).headD [])
      else
        '/' :: st.defaultRepoIdGet ++ '/' :: p
    ⟨false, some (absoluteRequiredMsg examplePath)⟩
  else
    let parts := splitOnChar '/' (p.drop 1)
    if parts.length < 2 ∨ (parts.headD []).isEmpty then
      ⟨false, some invalidAbsolutePatternMsg⟩
    else
      let repoId := parts.headD []
      if (st.getRepository (some repoId)).isNone then
        ⟨false, some (invalidRepoIdMsg repoId)⟩
      else ⟨true, none⟩

/-- `resolveToAbsolutePath`. -/
def resolveToAbsolutePath (st : RepoState) (p : JStr) : Except JStr JStr :=
  match parsePathFormat st p with
  | .error e => .error e
  | .ok parsed =>
    match st.getRepository (some parsed.repoId) with
    | none => .error ((("Repository not found: ").data) ++ parsed.repoId)
    | some repo => .ok (repo.path ++ '/' :: parsed.relativePath)

/-! ## ModuleManager (`moduleManager.ts`): module registry and detection -/

/-- The `ModuleType` union. -/
inductive ModuleType
  | api
  | service
  | web
  | library
  | staticSite
  | utility
  | docs
  | config
  | unknown
deriving DecidableEq

/-- `ModuleInfo`. -/
structure ModuleInfo where
  id : JStr
  name : JStr
  path : JStr
  type : ModuleType
  language : JStr
  repoId : Option JStr
deriving DecidableEq

/-- The `modulesByRepo` map of the `ModuleManager` class. -/
abbrev MMState := List (JStr × List (JStr × ModuleInfo))

/-- `ModuleManager.registerModule`: ensure the repository map exists, then
store the module under its id with the repository id stamped on. -/
def registerModule (st : MMState) (repoId : JStr) (m : ModuleInfo) : MMState :=
  let st1 := if (amGet repoId st).isNone then amSet repoId [] st else st
  match amGet repoId st1 with
  | some mods =>
    amSet repoId (amSet m.id { m with repoId := some repoId } mods) st1
  | none => st1

/-- First search tier of `getModuleByName`: an exact module-id key lookup
across all repositories (`modules.has(name)` then `modules.get(name)`). -/
def searchExactId (st : MMState) (n : JStr) : Option ModuleInfo :=
  st.findSome? (fun rm => amGet n rm.2)

/-- Second search tier: the first module whose `name` or `id` equals the
query exactly. -/
def searchNameOrId (st : MMState) (n : JStr) : Option ModuleInfo :=
  st.findSome? (fun rm =>
    rm.2.findSome? (fun e =>
      if e.2.name = n ∨ e.2.id = n then some e.2 else none))

/-- Third search tier: case-insensitive substring match on `name` or `id`. -/
def searchFuzzy (st : MMState) (n : JStr) : Option ModuleInfo :=
  st.findSome? (fun rm =>
    rm.2.findSome? (fun e =>
      if hasSubL (lowerL n) (lowerL e.2.name) ∨ hasSubL (lowerL n) (lowerL e.2.id)
      then some e.2 else none))

/-- `ModuleManager.getModuleByName`: the three loops of the source, each an
early return when it finds a match. -/
def getModuleByName (st : MMState) (n : JStr) : Option ModuleInfo :=
  match searchExactId st n with
  | some m => some m
  | none =>
    match searchNameOrId st n with
    | some m => some m
    | none => searchFuzzy st n

/-- Key/value consistency of the module registry: every stored entry is
keyed by its module's id (an invariant `registerModule` maintains). -/
def mmWellFormed (st : MMState) : Bool :=
  st.all (fun rm => rm.2.all (fun e => e.2.id = e.1))

/-! ### Filesystem model for module detection.

`detectModulesInRepository` and its helpers read the filesystem through
`fs.readdir`, `fs.stat`, `existsSync`, `fs.readFile` + `JSON.parse`, and a
spawned `find` command.  Each is an oracle field; `none` models a thrown
error (caught by the corresponding `try`/`catch` in the source). -/

/-- The parts of a parsed `package.json` the detector inspects. -/
structure PackageJson where
  name : Option JStr
  hasReact : Bool
  hasExpress : Bool
  hasFastify : Bool
  hasKoa : Bool
  privateIsFalse : Bool

/-- Filesystem oracles. `findFiles` is the raw stdout of the `find`
invocation in `detectLanguage` (already excluding the ignored directories,
as the `find` arguments do). -/
structure FSModel where
  readdir : JStr → Option (List JStr)
  statIsDir : JStr → Option Bool
  existsSync : JStr → Bool
  readPackageJson : JStr → Option PackageJson
  findFiles : JStr → Option JStr

/-- `path.join(a, b)`: concatenation with a separator (exact for the plain
directory-entry names this code joins; `path.join` normalization of dotted
segments is not exercised). -/
def pathJoin (a b : JStr) : JStr := a ++ '/' :: b

/-- `path.extname(file)`: the extension of the final path segment, empty
when there is no dot or the only dot starts a hidden file name. -/
def extnameL (p : JStr) : JStr :=
  let base := (splitOnChar '/' p).getLastD []
  match (List.range base.length).reverse.find?
      (fun i => base.getD i ' ' = '.') with
  | some i => if i = 0 then [] else base.drop i
  | none => []

/-- `ModuleManager.toTitleCase`: replace `-`/`_` by spaces, then uppercase
the first character of every `\w\S*` token and lowercase the rest. -/
def toTitleCase (s : JStr) : JStr :=
  let spaced := s.map (fun c => if c = '-' ∨ c = '_' then ' ' else c)
  (spaced.foldl
    (fun (acc : JStr × Bool) c =>
      if acc.2 then
        if c = ' ' then (acc.1 ++ [c], false)
        else (acc.1 ++ [c.toLower], true)
      else
        if c.isAlphanum ∨ c = '_' then (acc.1 ++ [c.toUpper], true)
        else (acc.1 ++ [c], false))
    ([], false)).1

/-- The fixed extension → language table of `detectLanguage`. -/
def langMap : List (JStr × JStr) :=
  [((".js").data, ("javascript").data), ((".jsx").data, ("javascript").data),
   ((".ts").data, ("typescript").data), ((".tsx").data, ("typescript").data),
   ((".py").data, ("python").data), ((".go").data, ("go").data),
   ((".rs").data, ("rust").data), ((".java").data, ("java").data),
   ((".rb").data, ("ruby").data), ((".php").data, ("php").data),
   ((".c").data, ("c").data), ((".cpp").data, ("cpp").data),
   ((".cs").data, ("csharp").data), ((".swift").data, ("swift").data),
   ((".html").data, ("html").data), ((".css").data, ("css").data),
   ((".scss").data, ("scss").data), ((".less").data, ("less").data),
   ((".md").data, ("markdown").data), ((".json").data, ("json").data),
   ((".yml").data, ("yaml").data), ((".yaml").data, ("yaml").data),
   ((".toml").data, ("toml").data), ((".sh").data, ("shell").data),
   ((".bash").data, ("shell").data)]

/-- Insertion-ordered counting map increment (`m[k] = (m[k] || 0) + n`). -/
def bumpBy (k : JStr) (n : Nat) : List (JStr × Nat) → List (JStr × Nat)
  | [] => [(k, n)]
  | (k', c) :: rest =>
    if k' = k then (k', c + n) :: rest else (k', c) :: bumpBy k n rest

/-- `ModuleManager.detectLanguage`: run `find`, split its stdout into lines,
count lowercased extensions, aggregate per language, and take the language
with the strictly largest count (first encountered wins ties). -/
def detectLanguage (fs : FSModel) (dirPath : JStr) : JStr :=
  match fs.findFiles dirPath with
  | none => (("unknown").data)
  | some out =>
    let files := (splitOnChar '\n' out).filter (fun l => ¬l.isEmpty)
    let extCounts := files.foldl
      (fun m f =>
        let ext := lowerL (extnameL f)
        if ext.isEmpty then m else bumpBy ext 1 m) []
    let langCounts := extCounts.foldl
      (fun m ec =>
        let lang := (amGet ec.1 langMap).getD (("unknown").data)
        bumpBy lang ec.2 m) []
    (langCounts.foldl
      (fun best lc => if lc.2 > best.2 then lc else best)
      ((("unknown").data), 0)).1

/-- The `package.json` branch of `detectConventionalModules` for one
top-level directory. -/
def convPackageJsonModule (item : JStr) (pj : PackageJson) : ModuleInfo :=
  let moduleType : ModuleType :=
    if isPreL (("web-").data) item ∨ pj.hasReact then .web
    else if hasSubL (("server").data) item ∨ hasSubL (("api").data) item ∨
        pj.hasExpress ∨ pj.hasFastify ∨ pj.hasKoa then .service
    else if hasSubL (("lib").data) item ∨ pj.privateIsFalse then .library
    else .unknown
  ⟨item, (pj.name.getD (toTitleCase item)), item, moduleType,
    (("typescript").data), none⟩

/-- The Python/Go/Rust manifest checks that run when there is no
`package.json` or its parsing failed. -/
def convManifestFallback (fs : FSModel) (itemPath item : JStr) :
    Option ModuleInfo :=
  if fs.existsSync (pathJoin itemPath (("requirements.txt").data)) ∨
      fs.existsSync (pathJoin itemPath (("setup.py").data)) ∨
      fs.existsSync (pathJoin itemPath (("pyproject.toml").data)) then
    let moduleType : ModuleType :=
      if isPreL (("api").data) item ∨ hasSubL (("api").data) item then .api
      else if hasSubL (("service").data) item ∨
          hasSubL (("processor").data) item then .service
      else if isPreL (("web-").data) item ∨
          fs.existsSync (pathJoin itemPath (("templates").data)) then .web
      else .unknown
    some ⟨item, toTitleCase item, item, moduleType, (("python").data), none⟩
  else if fs.existsSync (pathJoin itemPath (("go.mod").data)) then
    some ⟨item, toTitleCase item, item,
      (if hasSubL (("api").data) item then .api else .service),
      (("go").data), none⟩
  else if fs.existsSync (pathJoin itemPath (("Cargo.toml").data)) then
    some ⟨item, toTitleCase item, item, .service, (("rust").data), none⟩
  else none

/-- The per-item body of the `detectConventionalModules` loop (a `continue`
that pushed nothing is `none`; `itemPath = path.join(repoPath, item)` is
written out at each use). -/
def convForItem (fs : FSModel) (repoPath item : JStr) : Option ModuleInfo :=
  match fs.statIsDir (pathJoin repoPath item) with
  | none => none
  | some isDir =>
    if ¬isDir ∨ isPreL (['.']) item then none
    else if fs.existsSync
        (pathJoin (pathJoin repoPath item) (("package.json").data)) then
      match fs.readPackageJson
          (pathJoin (pathJoin repoPath item) (("package.json").data)) with
      | some pj => some (convPackageJsonModule item pj)
      | none => convManifestFallback fs (pathJoin repoPath item) item
    else convManifestFallback fs (pathJoin repoPath item) item

/-- `ModuleManager.detectConventionalModules`. -/
def detectConventionalModules (fs : FSModel) (repoPath : JStr) :
    List ModuleInfo :=
  match fs.readdir repoPath with
  | none => []
  | some items => items.filterMap (convForItem fs repoPath)

/-- The per-directory body of the `detectStaticSiteModules` loop
(`hasIndexHtml` / `hasMarkdown` are written out at each use). -/
def staticSiteForDir (fs : FSModel) (repoPath dir : JStr) : Option ModuleInfo :=
  if fs.existsSync (pathJoin repoPath dir) then
    match fs.statIsDir (pathJoin repoPath dir) with
    | none => none
    | some isDir =>
      if isDir then
        match fs.readdir (pathJoin repoPath dir) with
        | none => none
        | some items =>
          if items.contains (("index.html").data) ∨
              items.any (fun f => isSufL ((".md").data) f) then
            some ⟨dir,
              (if dir = (("docs").data) then (("Documentation").data)
                else toTitleCase dir),
              dir, .staticSite,
              (if items.any (fun f => isSufL ((".md").data) f)
                then (("markdown").data) else (("html").data)),
              none⟩
          else none
      else none
  else none

/-- `ModuleManager.detectStaticSiteModules`. -/
def detectStaticSiteModules (fs : FSModel) (repoPath : JStr) :
    List ModuleInfo :=
  [(("docs").data), (("website").data), (("gh-pages").data),
   (("static").data)].filterMap (staticSiteForDir fs repoPath)

/-- The per-directory body of the `detectUtilityModules` loop. -/
def utilityForDir (fs : FSModel) (repoPath dir : JStr) : Option ModuleInfo :=
  if fs.existsSync (pathJoin repoPath dir) then
    match fs.statIsDir (pathJoin repoPath dir) with
    | none => none
    | some isDir =>
      if isDir then
        some ⟨dir, toTitleCase dir, dir, .utility,
          detectLanguage fs (pathJoin repoPath dir), none⟩
      else none
  else none

/-- `ModuleManager.detectUtilityModules`. -/
def detectUtilityModules (fs : FSModel) (repoPath : JStr) : List ModuleInfo :=
  [(("scripts").data), (("examples").data), (("tools").data),
   (("config").data), (("utils").data)].filterMap (utilityForDir fs repoPath)

/-- The synthetic whole-repository module pushed when no module was
detected: `repoManager.getRepository(repoId)?.displayName || repoId`. -/
def catchAllModule (fs : FSModel) (rst : RepoState) (repoPath repoId : JStr) :
    ModuleInfo :=
  let nm :=
    match rst.getRepository (some repoId) with
    | some r => if r.displayName.isEmpty then repoId else r.displayName
    | none => repoId
  ⟨repoId, nm, [], .unknown, detectLanguage fs repoPath, none⟩

/-- `ModuleManager.detectModulesInRepository`: run the three passes in
order, then synthesize the catch-all module when nothing was found.  (The
`resetWorkingDirectory` call does not affect the returned list, and the
surrounding `try`/`catch` is unreachable because every helper catches its
own filesystem errors.) -/
def detectModulesInRepository (fs : FSModel) (rst : RepoState)
    (repoPath repoId : JStr) : List ModuleInfo :=
  let modules := detectConventionalModules fs repoPath ++
    detectStaticSiteModules fs repoPath ++ detectUtilityModules fs repoPath
  if modules.isEmpty then [catchAllModule fs rst repoPath repoId]
  else modules

/-- The concatenated output of the three detection passes, as accumulated by
the `modules.push` calls of `detectModulesInRepository` before the catch-all
check. -/
def detectionPasses (fs : FSModel) (repoPath : JStr) : List ModuleInfo :=
  detectConventionalModules fs repoPath ++
    detectStaticSiteModules fs repoPath ++ detectUtilityModules fs repoPath

theorem detectModulesInRepository_eq (fs : FSModel) (rst : RepoState)
    (repoPath repoId : JStr) :
    detectModulesInRepository fs rst repoPath repoId =
      if (detectionPasses fs repoPath).isEmpty
      then [catchAllModule fs rst repoPath repoId]
      else detectionPasses fs repoPath := rfl

/-! ## Classification lemmas for the three address shapes -/

theorem getPathFormatType_absolute (rest : JStr) :
    getPathFormatType ('/' :: rest) = .absolutePath := by
  unfold getPathFormatType
  simp [isPreL]

theorem getPathFormatType_prefixed_append (a b : JStr)
    (h0 : isPreL (['/']) a = false) :
    getPathFormatType (a ++ ':' :: '/' :: '/' :: b) = .repositoryPrefixed := by
  cases a with
  | nil =>
    unfold getPathFormatType
    have hsub := hasSubL_cssSep_append ([]) b
    simp only [List.nil_append] at hsub ⊢
    simp [isPreL, hsub]
  | cons c cs =>
    have hc : ¬('/' = c) := by
      intro hc
      subst hc
      simp [isPreL] at h0
    unfold getPathFormatType
    have hsub := hasSubL_cssSep_append (c :: cs) b
    simp only [List.cons_append] at hsub
    simp [isPreL, hc, hsub]

/-- Parsing an absolute address built from a slash-free repository id
recovers its two components. -/
theorem parsePathFormat_absolute_append (st : RepoState) (repoId rel : JStr)
    (_h1 : repoId ≠ []) (h2 : '/' ∉ repoId) :
    parsePathFormat st ('/' :: (repoId ++ '/' :: rel)) =
      .ok ⟨repoId, rel, .absolutePath⟩ := by
  unfold parsePathFormat
  rw [getPathFormatType_absolute]
  simp only [List.drop_succ_cons, List.drop_zero]
  rw [splitOnChar_append '/' repoId rel h2]
  have hlen : ¬((repoId :: splitOnChar '/' rel).length < 2) := by
    have := splitOnChar_ne_nil '/' rel
    have hpos : 0 < (splitOnChar '/' rel).length := List.length_pos.mpr this
    simp only [List.length_cons]
    omega
  rw [if_neg hlen]
  simp [joinChar_splitOnChar]

/-- Claim C10: the empty address string is classified as UNKNOWN, so
`parsePathFormat` and `resolveToAbsolutePath` throw a format error on it and
`validatePathForTool` reports it invalid for every tool. -/
theorem empty_address_unknown :
    ∀ st : RepoState,
      getPathFormatType ([]) = PathFormatType.unknown
      ∧ parsePathFormat st ([]) = .error (unknownFormatMsg ([]))
      ∧ resolveToAbsolutePath st ([]) = .error (unknownFormatMsg ([]))
      ∧ ∀ t : JStr, (validatePathForTool st ([]) t).isValid = false := by
  intro st
  exact ⟨rfl, rfl, rfl, fun t => rfl⟩

/-- Claim C2: every address that does not begin with `'/'` is rejected by
`validatePathForTool` with a structured failure carrying an error message,
for every tool name (the function is total, so it never throws). -/
theorem validate_rejects_nonabsolute (st : RepoState) (addr t : JStr)
    (h : isPreL (['/']) addr = false) :
    (validatePathForTool st addr t).isValid = false ∧
      (validatePathForTool st addr t).errorMessage.isSome = true := by
  have hft : getPathFormatType addr ≠ PathFormatType.absolutePath := by
    unfold getPathFormatType
    split_ifs with h1 h2 h3 <;> simp_all
  unfold validatePathForTool
  rw [if_pos hft]
  exact ⟨rfl, rfl⟩

/-- Witness for C2 at a concrete relative address and tool. -/
theorem validate_rejects_nonabsolute_witness :
    (validatePathForTool initialRepoState (("src/a.ts").data)
        (("read-file").data)).isValid = false ∧
      (validatePathForTool initialRepoState (("src/a.ts").data)
        (("read-file").data)).errorMessage.isSome = true :=
  validate_rejects_nonabsolute initialRepoState (("src/a.ts").data)
    (("read-file").data) (by decide)

/-- Claim C7: parsing is a left inverse of absolute-address reconstruction:
for a non-empty repository id containing no `'/'`,
`parsePathFormat("/" + repoId + "/" + rel)` recovers both components. -/
theorem parse_left_inverse (st : RepoState) (repoId rel : JStr)
    (h1 : repoId ≠ []) (h2 : '/' ∉ repoId) :
    parsePathFormat st ('/' :: (repoId ++ '/' :: rel)) =
      .ok ⟨repoId, rel, .absolutePath⟩ :=
  parsePathFormat_absolute_append st repoId rel h1 h2

/-- Witness for C7 at `"/demo/src/a.ts"`. -/
theorem parse_left_inverse_witness :
    parsePathFormat initialRepoState (("/demo/src/a.ts").data) =
      .ok ⟨(("demo").data), (("src/a.ts").data), .absolutePath⟩ := by
  have h := parse_left_inverse initialRepoState (("demo").data)
    (("src/a.ts").data) (by decide) (by decide)
  exact h

/-- Claim C1: for a registered repository with a well-formed (non-empty,
slash-free) id, resolving `"/" + id + "/" + p` yields exactly
`rootPath + "/" + p` for every relative path string `p`. -/
theorem resolve_registered_repo (st : RepoState) (r : RepoConfig) (p : JStr)
    (h1 : r.id ≠ []) (h2 : '/' ∉ r.id)
    (h3 : amGet r.id st.repositories = some r) :
    resolveToAbsolutePath st ('/' :: (r.id ++ '/' :: p)) =
      .ok (r.path ++ '/' :: p) := by
  unfold resolveToAbsolutePath
  rw [parsePathFormat_absolute_append st r.id p h1 h2]
  have hid : r.id.isEmpty = false := by
    cases hr : r.id with
    | nil => exact absurd hr h1
    | cons c cs => rfl
  have hget : st.getRepository (some r.id) = some r := by
    unfold RepoState.getRepository
    rw [if_neg]
    · simp [hid, h3]
    · intro ⟨hf, _⟩
      simp [falsyStr, hid] at hf
  simp [hget]

/-- Witness for C1: a freshly registered `demo` repository resolves a
concrete address to its root-relative concatenation. -/
theorem resolve_registered_repo_witness :
    resolveToAbsolutePath
        (initialRepoState.addRepository
          ⟨(("demo").data), (("/srv/demo").data), (("Demo").data)⟩)
        (("/demo/src/a.ts").data) =
      .ok (("/srv/demo/src/a.ts").data) := by
  have h := resolve_registered_repo
    (initialRepoState.addRepository
      ⟨(("demo").data), (("/srv/demo").data), (("Demo").data)⟩)
    ⟨(("demo").data), (("/srv/demo").data), (("Demo").data)⟩
    (("src/a.ts").data) (by decide) (by decide) (by decide)
  exact h

/-- Claim C9: a well-formed absolute address whose first segment is not a
registered repository id is rejected by `validatePathForTool` with a
structured failure whose message names the unknown id (it is never
accepted). -/
theorem validate_unknown_repo_id (st : RepoState) (x rest t : JStr)
    (h1 : x ≠ []) (h2 : '/' ∉ x)
    (h3 : amGet x st.repositories = none) :
    validatePathForTool st ('/' :: (x ++ '/' :: rest)) t =
      ⟨false, some (invalidRepoIdMsg x)⟩ ∧
    hasSubL x (invalidRepoIdMsg x) = true := by
  constructor
  · have hft : ¬(getPathFormatType ('/' :: (x ++ '/' :: rest)) ≠
        PathFormatType.absolutePath) := by
      rw [getPathFormatType_absolute]
      simp
    unfold validatePathForTool
    rw [if_neg hft]
    simp only [List.drop_succ_cons, List.drop_zero]
    rw [splitOnChar_append '/' x rest h2]
    have hid : x.isEmpty = false := by
      cases hr : x with
      | nil => exact absurd hr h1
      | cons c cs => rfl
    have hlen : ¬((x :: splitOnChar '/' rest).length < 2 ∨
        ((x :: splitOnChar '/' rest).headD []).isEmpty = true) := by
      have hne := splitOnChar_ne_nil '/' rest
      have hpos : 0 < (splitOnChar '/' rest).length := List.length_pos.mpr hne
      simp only [List.length_cons, List.headD_cons, hid]
      push_neg
      refine ⟨by omega, by simp⟩
    rw [if_neg hlen]
    have hget : st.getRepository (some x) = none := by
      unfold RepoState.getRepository
      rw [if_neg]
      · simp [hid, h3]
      · intro ⟨hf, _⟩
        simp [falsyStr, hid] at hf
    simp [hget]
  · have : invalidRepoIdMsg x =
        ((("INVALID REPOSITORY ID: ").data) ++ [squote]) ++ x ++
          (squote :: ((" not found in registered repositories.").data)) := by
      simp [invalidRepoIdMsg]
    rw [this]
    exact hasSubL_append x _ _

/-- Witness for C9 at `"/ghost/x"` against the empty registry. -/
theorem validate_unknown_repo_id_witness :
    validatePathForTool initialRepoState (("/ghost/x").data)
        (("read-file").data) =
      ⟨false, some (invalidRepoIdMsg (("ghost").data))⟩ ∧
    hasSubL (("ghost").data) (invalidRepoIdMsg (("ghost").data)) = true := by
  have h := validate_unknown_repo_id initialRepoState (("ghost").data)
    (("x").data) (("read-file").data) (by decide) (by decide) (by decide)
  exact h

theorem isEmpty_false_of_ne_nil {α : Type} (s : List α) (h : s ≠ []) :
    s.isEmpty = false := by
  cases s with
  | nil => exact absurd rfl h
  | cons c cs => rfl

/-- Counterexample to C6 as stated: when the text after the first `"://"`
itself contains `"://"`, `parsePathFormat` keeps only the portion up to the
second separator — `"demo://a://b"` parses to relative path `"a"`, not
`"a://b"`. -/
theorem parse_prefixed_counterexample :
    parsePathFormat initialRepoState (("demo://a://b").data) =
      .ok ⟨(("demo").data), (("a").data), .repositoryPrefixed⟩ ∧
    (("a").data : JStr) ≠ (("a://b").data) := by
  constructor
  · rfl
  · decide

/-- The general shape of `parsePathFormat` on any prefixed address whose
repository part contains no `"://"`: the relative path is the first field of
`splitCSS rest` (the portion of `rest` up to the next `"://"`), and parsing
fails exactly when that field is empty. -/
theorem parsePathFormat_prefixed_split (st : RepoState) (repoId rest : JStr)
    (h0 : isPreL (['/']) repoId = false) (h1 : repoId ≠ [])
    (h2 : hasSubL cssSep repoId = false) :
    parsePathFormat st (repoId ++ ':' :: '/' :: '/' :: rest) =
      if ((splitCSS rest).headD []).isEmpty
      then .error (invalidPrefixedMsg (repoId ++ ':' :: '/' :: '/' :: rest))
      else .ok ⟨repoId, (splitCSS rest).headD [], .repositoryPrefixed⟩ := by
  unfold parsePathFormat
  rw [getPathFormatType_prefixed_append repoId rest h0]
  rw [splitCSS_append repoId rest h2]
  simp [isEmpty_false_of_ne_nil repoId h1]

/-- A prefixed address whose repository part is empty always fails. -/
theorem parsePathFormat_prefixed_nil_pre (st : RepoState) (rest : JStr) :
    parsePathFormat st (':' :: '/' :: '/' :: rest) =
      .error (invalidPrefixedMsg (':' :: '/' :: '/' :: rest)) := by
  have h := getPathFormatType_prefixed_append ([]) rest (by rfl)
  simp only [List.nil_append] at h
  unfold parsePathFormat
  rw [h]
  have hsp := splitCSS_append ([]) rest (by rfl)
  simp only [List.nil_append] at hsp
  rw [hsp]
  simp

/-- Claim C6 (amended): on every prefixed address `repoId ++ "://" ++ rest`
(`repoId` non-empty, free of `"://"` and not starting with `'/'`),
`parsePathFormat` returns `repoId` together with the portion of `rest` up to
the next `"://"` occurrence — the second field of the split — for every
`rest`, including those containing further `"://"`; when `rest` contains no
further `"://"` that portion is `rest` itself; and parsing fails whenever
either of the first two split fields is empty (empty `rest`, `rest`
beginning with `"://"`, or empty repository part). -/
theorem parse_prefixed_amended :
    (∀ (st : RepoState) (repoId rest : JStr),
      isPreL (['/']) repoId = false → repoId ≠ [] →
      hasSubL cssSep repoId = false →
      parsePathFormat st (repoId ++ ':' :: '/' :: '/' :: rest) =
        if ((splitCSS rest).headD []).isEmpty
        then .error (invalidPrefixedMsg (repoId ++ ':' :: '/' :: '/' :: rest))
        else .ok ⟨repoId, (splitCSS rest).headD [], .repositoryPrefixed⟩)
    ∧ (∀ (st : RepoState) (repoId u v : JStr),
      isPreL (['/']) repoId = false → repoId ≠ [] →
      hasSubL cssSep repoId = false → u ≠ [] → hasSubL cssSep u = false →
      parsePathFormat st
          (repoId ++ ':' :: '/' :: '/' :: (u ++ ':' :: '/' :: '/' :: v)) =
        .ok ⟨repoId, u, .repositoryPrefixed⟩)
    ∧ (∀ (st : RepoState) (repoId rest : JStr),
      isPreL (['/']) repoId = false → repoId ≠ [] →
      hasSubL cssSep repoId = false → rest ≠ [] →
      hasSubL cssSep rest = false →
      parsePathFormat st (repoId ++ ':' :: '/' :: '/' :: rest) =
        .ok ⟨repoId, rest, .repositoryPrefixed⟩)
    ∧ (∀ (st : RepoState) (repoId : JStr),
      isPreL (['/']) repoId = false → hasSubL cssSep repoId = false →
      parsePathFormat st (repoId ++ ':' :: '/' :: '/' :: []) =
        .error (invalidPrefixedMsg (repoId ++ ':' :: '/' :: '/' :: [])))
    ∧ (∀ (st : RepoState) (repoId v : JStr),
      isPreL (['/']) repoId = false → hasSubL cssSep repoId = false →
      parsePathFormat st
          (repoId ++ ':' :: '/' :: '/' :: (':' :: '/' :: '/' :: v)) =
        .error (invalidPrefixedMsg
          (repoId ++ ':' :: '/' :: '/' :: (':' :: '/' :: '/' :: v))))
    ∧ (∀ (st : RepoState) (rest : JStr),
      parsePathFormat st (':' :: '/' :: '/' :: rest) =
        .error (invalidPrefixedMsg (':' :: '/' :: '/' :: rest))) := by
  refine ⟨?_, ?_, ?_, ?_, ?_, ?_⟩
  · intro st repoId rest h0 h1 h2
    exact parsePathFormat_prefixed_split st repoId rest h0 h1 h2
  · intro st repoId u v h0 h1 h2 hu1 hu2
    have h := parsePathFormat_prefixed_split st repoId
      (u ++ ':' :: '/' :: '/' :: v) h0 h1 h2
    rw [splitCSS_append u v hu2] at h
    simp only [List.headD_cons] at h
    rw [h, if_neg]
    simp [isEmpty_false_of_ne_nil u hu1]
  · intro st repoId rest h0 h1 h2 hr1 hr2
    have h := parsePathFormat_prefixed_split st repoId rest h0 h1 h2
    rw [splitCSS_of_not_hasSub rest hr2] at h
    simp only [List.headD_cons] at h
    rw [h, if_neg]
    simp [isEmpty_false_of_ne_nil rest hr1]
  · intro st repoId h0 h2
    by_cases h1 : repoId = []
    · subst h1
      simp only [List.nil_append]
      exact parsePathFormat_prefixed_nil_pre st ([])
    · have h := parsePathFormat_prefixed_split st repoId ([]) h0 h1 h2
      rw [h, if_pos]
      simp [splitCSS]
  · intro st repoId v h0 h2
    by_cases h1 : repoId = []
    · subst h1
      simp only [List.nil_append]
      exact parsePathFormat_prefixed_nil_pre st (':' :: '/' :: '/' :: v)
    · have h := parsePathFormat_prefixed_split st repoId
        (':' :: '/' :: '/' :: v) h0 h1 h2
      have hs : splitCSS (':' :: '/' :: '/' :: v) = [] :: splitCSS v := by
        rw [splitCSS, if_pos ⟨rfl, rfl, rfl⟩]
      rw [hs] at h
      simp only [List.headD_cons] at h
      rw [h, if_pos]
      rfl
  · intro st rest
    exact parsePathFormat_prefixed_nil_pre st rest

/-- Witness for the amended C6: the spec's own example address, plus the
headline case of a rest that itself contains `"://"`. -/
theorem parse_prefixed_amended_witness :
    parsePathFormat initialRepoState (("demo://src/a.ts").data) =
      .ok ⟨(("demo").data), (("src/a.ts").data), .repositoryPrefixed⟩
    ∧ parsePathFormat initialRepoState (("one://two://three").data) =
      .ok ⟨(("one").data), (("two").data), .repositoryPrefixed⟩ := by
  constructor
  · have h := parse_prefixed_amended.2.2.1 initialRepoState (("demo").data)
      (("src/a.ts").data) (by decide) (by decide) (by decide) (by decide)
      (by decide)
    exact h
  · have h := parse_prefixed_amended.2.1 initialRepoState (("one").data)
      (("two").data) (("three").data) (by decide) (by decide) (by decide)
      (by decide) (by decide)
    exact h

/-- Claim C5: `setRepositoryAsWorkingDirectory` performs the reset phase
first (its trace is a prefix of the whole trace), the reset phase leaves the
process in the canonical root, and every directory change into a non-root
target departs from the root — the working directory never moves from one
repository directly into another. -/
theorem setRepo_wd_passes_through_root (ok : JStr → Bool) (st : ProcState)
    (repoId : Option JStr) (hok : ok st.repo.rootDir = true) :
    (resetWorkingDirectory ok st).2.1.cwd = st.repo.rootDir
    ∧ (∃ rest, (setRepositoryAsWorkingDirectory ok st repoId).2.2 =
        (resetWorkingDirectory ok st).2.2 ++ rest)
    ∧ ∀ ev ∈ (setRepositoryAsWorkingDirectory ok st repoId).2.2,
        ev.2 ≠ st.repo.rootDir → ev.1 = st.repo.rootDir := by
  have h1 : (resetWorkingDirectory ok st).2.1.cwd = st.repo.rootDir := by
    unfold resetWorkingDirectory
    by_cases hc : st.cwd = st.repo.rootDir
    · simp [hc]
    · simp [hc, hok]
  have h3 : ∀ ev ∈ (resetWorkingDirectory ok st).2.2,
      ev.2 = st.repo.rootDir := by
    unfold resetWorkingDirectory
    by_cases hc : st.cwd = st.repo.rootDir
    · simp [hc]
    · simp [hc, hok]
  refine ⟨h1, ?_, ?_⟩
  · cases hg : (resetWorkingDirectory ok st).2.1.repo.getRepository repoId with
    | none =>
      refine ⟨[], ?_⟩
      simp [setRepositoryAsWorkingDirectory, hg]
    | some repo =>
      cases hokr : ok repo.path with
      | true =>
        refine ⟨[((resetWorkingDirectory ok st).2.1.cwd, repo.path)], ?_⟩
        simp [setRepositoryAsWorkingDirectory, hg, hokr]
      | false =>
        refine ⟨[], ?_⟩
        simp [setRepositoryAsWorkingDirectory, hg, hokr]
  · intro ev hev hne
    cases hg : (resetWorkingDirectory ok st).2.1.repo.getRepository repoId with
    | none =>
      simp only [setRepositoryAsWorkingDirectory, hg] at hev
      exact absurd (h3 ev hev) hne
    | some repo =>
      cases hokr : ok repo.path with
      | true =>
        simp only [setRepositoryAsWorkingDirectory, hg, hokr, if_true] at hev
        rcases List.mem_append.mp hev with hm | hm
        · exact absurd (h3 ev hm) hne
        · have : ev = ((resetWorkingDirectory ok st).2.1.cwd, repo.path) := by
            simpa using hm
          rw [this]
          exact h1
      | false =>
        simp only [setRepositoryAsWorkingDirectory, hg, hokr] at hev
        simp at hev
        exact absurd (h3 ev hev) hne

/-- Witness for C5 with an infallible `chdir`, one registered repository and
a process currently inside another directory. -/
theorem setRepo_wd_passes_through_root_witness :
    ((resetWorkingDirectory (fun _ => true)
        ⟨initialRepoState.addRepository
          ⟨(("demo").data), (("/srv/demo").data), (("Demo").data)⟩,
          (("/srv/other").data)⟩).2.1.cwd = (['/']))
    ∧ (∃ rest,
        (setRepositoryAsWorkingDirectory (fun _ => true)
          ⟨initialRepoState.addRepository
            ⟨(("demo").data), (("/srv/demo").data), (("Demo").data)⟩,
            (("/srv/other").data)⟩ (some (("demo").data))).2.2 =
        (resetWorkingDirectory (fun _ => true)
          ⟨initialRepoState.addRepository
            ⟨(("demo").data), (("/srv/demo").data), (("Demo").data)⟩,
            (("/srv/other").data)⟩).2.2 ++ rest)
    ∧ ∀ ev ∈ (setRepositoryAsWorkingDirectory (fun _ => true)
          ⟨initialRepoState.addRepository
            ⟨(("demo").data), (("/srv/demo").data), (("Demo").data)⟩,
            (("/srv/other").data)⟩ (some (("demo").data))).2.2,
        ev.2 ≠ (['/']) → ev.1 = (['/']) :=
  setRepo_wd_passes_through_root (fun _ => true)
    ⟨initialRepoState.addRepository
      ⟨(("demo").data), (("/srv/demo").data), (("Demo").data)⟩,
      (("/srv/other").data)⟩ (some (("demo").data)) (by rfl)

/-! ## Default-repository lemmas for C8 -/

theorem addRepository_keeps_default (st : RepoState) (cfg : RepoConfig)
    (d : JStr) (h : st.defaultRepoId = some d) (hd : d ≠ []) :
    (st.addRepository cfg).defaultRepoId = some d := by
  unfold RepoState.addRepository
  have hf : falsyStr (some d) = false := by
    simp [falsyStr, isEmpty_false_of_ne_nil d hd]
  simp only [h]
  simp [hf, h]

theorem foldl_addRepository_keeps_default (cs : List RepoConfig)
    (st : RepoState) (d : JStr) (h : st.defaultRepoId = some d)
    (hd : d ≠ []) :
    (cs.foldl RepoState.addRepository st).defaultRepoId = some d := by
  induction cs generalizing st with
  | nil => simpa using h
  | cons c cs ih =>
    simp only [List.foldl_cons]
    exact ih _ (addRepository_keeps_default st c d h hd)

theorem addRepository_initial_default (st : RepoState) (cfg : RepoConfig)
    (h : st.defaultRepoId = none) :
    (st.addRepository cfg).defaultRepoId = some cfg.id := by
  unfold RepoState.addRepository
  simp only [h]
  simp [falsyStr]
  split <;> rfl

/-- Claim C8: starting from the empty registry, the default repository id is
the id of the first registered repository and later registrations never
displace it; and whenever the legacy `SWIFT_CODER_REPO_PATH` override is
present and names an existing path, `swift-coder` becomes the default
regardless of registration order. -/
theorem default_repo_first_registered :
    (∀ (c0 : RepoConfig) (cs : List RepoConfig), c0.id ≠ [] →
      ((c0 :: cs).foldl RepoState.addRepository
          initialRepoState).defaultRepoIdGet = c0.id)
    ∧ (∀ (env : EnvModel) (p : JStr),
        env.envGet ((("SWIFT_CODER_REPO_PATH").data)) = some p → p ≠ [] →
        env.pathExists p = true →
        (loadFromEnvironment env initialRepoState).defaultRepoIdGet =
          (("swift-coder").data)) := by
  constructor
  · intro c0 cs h0
    have hinit : (initialRepoState.addRepository c0).defaultRepoId =
        some c0.id := addRepository_initial_default _ _ rfl
    have h2 := foldl_addRepository_keeps_default cs _ c0.id hinit h0
    simp only [List.foldl_cons]
    unfold RepoState.defaultRepoIdGet
    rw [h2]
    simp [isEmpty_false_of_ne_nil c0.id h0]
  · intro env p hp hpne hex
    have hie : p.isEmpty = false := isEmpty_false_of_ne_nil p hpne
    unfold loadFromEnvironment
    rw [hp]
    simp only [hie, hex, Bool.false_eq_true, not_false_eq_true, and_self,
      if_true]
    rfl

/-- A concrete environment for the C8 witness: one `REPO_PATH_` variable and
the legacy override, with every path reported as existing. -/
def envW : EnvModel :=
  { vars := [((("REPO_PATH_ATLAS").data), (("/atlas").data)),
             ((("SWIFT_CODER_REPO_PATH").data), (("/sc").data))],
    pathExists := fun _ => true }

/-- Witness for C8 with two explicit registrations and with `envW`. -/
theorem default_repo_first_registered_witness :
    (((⟨(("alpha").data), (("/a").data), (("Alpha").data)⟩ : RepoConfig) ::
        [⟨(("beta").data), (("/b").data), (("Beta").data)⟩]).foldl
        RepoState.addRepository initialRepoState).defaultRepoIdGet =
      (("alpha").data)
    ∧ (loadFromEnvironment envW initialRepoState).defaultRepoIdGet =
      (("swift-coder").data) :=
  ⟨default_repo_first_registered.1
      ⟨(("alpha").data), (("/a").data), (("Alpha").data)⟩
      [⟨(("beta").data), (("/b").data), (("Beta").data)⟩] (by decide),
   default_repo_first_registered.2 envW (("/sc").data) (by rfl) (by decide)
     (by rfl)⟩

/-! ## findSome? helper lemmas for C4 -/

theorem findSome?_eq_some_ex {α β : Type} (f : α → Option β) (l : List α)
    (b : β) (h : l.findSome? f = some b) : ∃ a ∈ l, f a = some b := by
  induction l with
  | nil => simp [List.findSome?] at h
  | cons x xs ih =>
    rw [List.findSome?_cons] at h
    cases hf : f x with
    | some v =>
      rw [hf] at h
      exact ⟨x, List.mem_cons_self x xs, by rw [hf]; exact h⟩
    | none =>
      rw [hf] at h
      obtain ⟨a, ha, hfa⟩ := ih h
      exact ⟨a, List.mem_cons_of_mem x ha, hfa⟩

theorem findSome?_isSome_of_ex {α β : Type} (f : α → Option β) (l : List α)
    (h : ∃ a ∈ l, (f a).isSome = true) : (l.findSome? f).isSome = true := by
  induction l with
  | nil => simp at h
  | cons x xs ih =>
    rw [List.findSome?_cons]
    rcases h with ⟨a, ha, hfa⟩
    rcases List.mem_cons.mp ha with rfl | ha'
    · cases hf : f a with
      | none => rw [hf] at hfa; simp at hfa
      | some v => rfl
    · cases hf : f x with
      | none => exact ih ⟨a, ha', hfa⟩
      | some v => rfl

/-- Any tier-one hit returns a module whose id is exactly the query, as long
as the registry keys every module under its own id. -/
theorem searchExactId_id (st : MMState) (n : JStr) (m : ModuleInfo)
    (hw : mmWellFormed st = true) (h : searchExactId st n = some m) :
    m.id = n := by
  obtain ⟨rm, hrm, hget⟩ := findSome?_eq_some_ex _ st m h
  have hmem := amGet_mem n rm.2 m hget
  have hw1 := (List.all_eq_true.mp hw) rm hrm
  have hw2 := (List.all_eq_true.mp hw1) (n, m) hmem
  simpa using hw2

/-- Claim C4: `getModuleByName` tries the three search tiers in order —
exact id key, exact name-or-id, case-insensitive substring — returning from
the first tier with any match; consequently, in a well-formed registry that
contains a module keyed `api` (e.g. alongside `api-gateway` in the same
repository), `getModuleByName("api")` returns a module whose id is exactly
`api`, never `api-gateway`. -/
theorem getModuleByName_tier_order :
    (∀ (st : MMState) (n : JStr) (m : ModuleInfo),
      searchExactId st n = some m → getModuleByName st n = some m)
    ∧ (∀ (st : MMState) (n : JStr) (m : ModuleInfo),
      searchExactId st n = none → searchNameOrId st n = some m →
      getModuleByName st n = some m)
    ∧ (∀ (st : MMState) (n : JStr),
      searchExactId st n = none → searchNameOrId st n = none →
      getModuleByName st n = searchFuzzy st n)
    ∧ (∀ st : MMState, mmWellFormed st = true →
      (∃ rm ∈ st, (amGet (("api").data) rm.2).isSome = true ∧
        (amGet (("api-gateway").data) rm.2).isSome = true) →
      ∃ m, getModuleByName st (("api").data) = some m ∧
        m.id = (("api").data)) := by
  refine ⟨?_, ?_, ?_, ?_⟩
  · intro st n m h
    unfold getModuleByName
    rw [h]
  · intro st n m h1 h2
    unfold getModuleByName
    rw [h1, h2]
  · intro st n h1 h2
    unfold getModuleByName
    rw [h1, h2]
  · intro st hw hex
    obtain ⟨rm, hrm, hapi, _⟩ := hex
    have hsome : (searchExactId st (("api").data)).isSome = true :=
      findSome?_isSome_of_ex _ st ⟨rm, hrm, hapi⟩
    obtain ⟨m, hm⟩ := Option.isSome_iff_exists.mp hsome
    refine ⟨m, ?_, searchExactId_id st _ m hw hm⟩
    unfold getModuleByName
    rw [hm]

/-- Witness for C4: `api` and `api-gateway` registered under one repository;
the lookup returns the module whose id is exactly `api`. -/
theorem getModuleByName_tier_order_witness :
    mmWellFormed
        (registerModule
          (registerModule ([]) (("r1").data)
            ⟨(("api").data), (("Api").data), (("api").data), .service,
              (("go").data), none⟩)
          (("r1").data)
          ⟨(("api-gateway").data), (("Api Gateway").data),
            (("api-gateway").data), .service, (("go").data), none⟩) = true
    ∧ (∃ m, getModuleByName
        (registerModule
          (registerModule ([]) (("r1").data)
            ⟨(("api").data), (("Api").data), (("api").data), .service,
              (("go").data), none⟩)
          (("r1").data)
          ⟨(("api-gateway").data), (("Api Gateway").data),
            (("api-gateway").data), .service, (("go").data), none⟩)
        (("api").data) = some m ∧ m.id = (("api").data)) :=
  ⟨by decide,
   getModuleByName_tier_order.2.2.2 _ (by decide) (by decide)⟩

/-! ## Module-detection path lemmas for C3 -/

theorem convManifestFallback_path (fs : FSModel) (itemPath item : JStr)
    (m : ModuleInfo) (h : convManifestFallback fs itemPath item = some m) :
    m.path = item := by
  unfold convManifestFallback at h
  split at h
  · have h' := Option.some.inj h
    subst h'
    rfl
  · split at h
    · have h' := Option.some.inj h
      subst h'
      rfl
    · split at h
      · have h' := Option.some.inj h
        subst h'
        rfl
      · simp at h

theorem convForItem_path (fs : FSModel) (rp item : JStr) (m : ModuleInfo)
    (h : convForItem fs rp item = some m) : m.path = item := by
  unfold convForItem at h
  repeat' split at h
  all_goals first
    | (have h' := Option.some.inj h; subst h'; rfl)
    | (exact convManifestFallback_path fs _ item m h)
    | simp at h

theorem conv_path_ne_nil (fs : FSModel) (rp : JStr)
    (hrd : ∀ items, fs.readdir rp = some items → ([] : JStr) ∉ items)
    (m : ModuleInfo) (hm : m ∈ detectConventionalModules fs rp) :
    m.path ≠ [] := by
  unfold detectConventionalModules at hm
  cases hr : fs.readdir rp with
  | none => rw [hr] at hm; simp at hm
  | some items =>
    rw [hr] at hm
    obtain ⟨i, hi, hci⟩ := List.mem_filterMap.mp hm
    rw [convForItem_path fs rp i m hci]
    intro hnil
    exact (hrd items hr) (hnil ▸ hi)

theorem staticSiteForDir_path (fs : FSModel) (rp dir : JStr) (m : ModuleInfo)
    (h : staticSiteForDir fs rp dir = some m) : m.path = dir := by
  unfold staticSiteForDir at h
  repeat' split at h
  all_goals first
    | (have h' := Option.some.inj h; subst h'; rfl)
    | simp at h

theorem utilityForDir_path (fs : FSModel) (rp dir : JStr) (m : ModuleInfo)
    (h : utilityForDir fs rp dir = some m) : m.path = dir := by
  unfold utilityForDir at h
  repeat' split at h
  all_goals first
    | (have h' := Option.some.inj h; subst h'; rfl)
    | simp at h

theorem detectionPasses_path_ne_nil (fs : FSModel) (rp : JStr)
    (hrd : ∀ items, fs.readdir rp = some items → ([] : JStr) ∉ items)
    (m : ModuleInfo) (hm : m ∈ detectionPasses fs rp) : m.path ≠ [] := by
  unfold detectionPasses at hm
  rcases List.mem_append.mp hm with hm' | hm'
  · rcases List.mem_append.mp hm' with hc | hs
    · exact conv_path_ne_nil fs rp hrd m hc
    · obtain ⟨d, hd, hsd⟩ := List.mem_filterMap.mp hs
      rw [staticSiteForDir_path fs rp d m hsd]
      fin_cases hd <;> decide
  · obtain ⟨d, hd, hsd⟩ := List.mem_filterMap.mp hm'
    rw [utilityForDir_path fs rp d m hsd]
    fin_cases hd <;> decide

/-- Claim C3: the detection result contains a module with empty path exactly
when the three passes produced nothing; in that case the result is exactly
the one catch-all module (path `""`, type `unknown`, language from the
whole-repository extension scan), so at most one module per repository ever
has an empty path.  (The hypothesis reflects that `fs.readdir` never yields
an empty entry name.) -/
theorem detect_catchall_iff_empty (fs : FSModel) (rst : RepoState)
    (repoPath repoId : JStr)
    (hrd : ∀ items, fs.readdir repoPath = some items → ([] : JStr) ∉ items) :
    ((∃ m ∈ detectModulesInRepository fs rst repoPath repoId, m.path = [])
      ↔ detectionPasses fs repoPath = [])
    ∧ (detectionPasses fs repoPath = [] →
        detectModulesInRepository fs rst repoPath repoId =
          [catchAllModule fs rst repoPath repoId])
    ∧ (detectModulesInRepository fs rst repoPath repoId).countP
        (fun m => m.path.isEmpty) ≤ 1 := by
  rw [detectModulesInRepository_eq]
  by_cases hp : detectionPasses fs repoPath = []
  · rw [hp]
    simp only [List.isEmpty_nil, if_true]
    refine ⟨?_, ?_, ?_⟩
    · constructor
      · intro _
        trivial
      · intro _
        exact ⟨catchAllModule fs rst repoPath repoId,
          List.mem_singleton.mpr rfl, rfl⟩
    · intro _
      trivial
    · exact le_trans (List.countP_le_length _) (by simp)
  · have hne : (detectionPasses fs repoPath).isEmpty = false :=
      isEmpty_false_of_ne_nil _ hp
    simp only [hne, Bool.false_eq_true, if_false]
    refine ⟨?_, fun h => absurd h hp, ?_⟩
    · constructor
      · rintro ⟨m, hm, hpath⟩
        exact absurd hpath (detectionPasses_path_ne_nil fs repoPath hrd m hm)
      · intro h
        exact absurd h hp
    · have hz : (detectionPasses fs repoPath).countP
          (fun m => m.path.isEmpty) = 0 := by
        rw [List.countP_eq_zero]
        intro m hm
        simp only [Bool.not_eq_true]
        exact isEmpty_false_of_ne_nil _
          (detectionPasses_path_ne_nil fs repoPath hrd m hm)
      rw [hz]
      exact Nat.zero_le 1

/-- A filesystem on which every probe fails or is empty: no modules can be
detected, so the catch-all path is taken. -/
def fsEmpty : FSModel :=
  { readdir := fun _ => some [],
    statIsDir := fun _ => none,
    existsSync := fun _ => false,
    readPackageJson := fun _ => none,
    findFiles := fun _ => none }

/-- Witness for C3 on `fsEmpty`: the result is exactly the catch-all module
with empty path, type `unknown` and language `unknown`. -/
theorem detect_catchall_iff_empty_witness :
    ((∃ m ∈ detectModulesInRepository fsEmpty initialRepoState
        (("/repo").data) (("demo").data), m.path = [])
      ↔ detectionPasses fsEmpty (("/repo").data) = [])
    ∧ detectModulesInRepository fsEmpty initialRepoState (("/repo").data)
        (("demo").data) =
      [catchAllModule fsEmpty initialRepoState (("/repo").data)
        (("demo").data)] := by
  have h := detect_catchall_iff_empty fsEmpty initialRepoState
    (("/repo").data) (("demo").data)
    (by
      intro items hit
      have : items = ([] : List JStr) := by
        simpa [fsEmpty] using hit.symm
      simp [this])
  exact ⟨h.1, h.2.1 (by rfl)⟩

end SwiftCoder
